import Mathlib

/-!
The Dash LED PWM example (`examples/pwm/pwm.c`)

A shallow embedding of the PWM colour cycler: the millisecond clock and its
busy-wait `delay`, the three timer compare registers written by `led_color`,
the HSV to RGB conversion and the animation loop of `main`.

Conventions of the embedding:

* C `float` values are rationals (`ℚ`).  The arithmetic of `hsv_to_rgb` and of
  the hue counter is exact arithmetic; whole hues below 360 are exact in
  binary32.  The product that `led_color` hands to the timer is rounded to
  binary32 (`f32_round`, round to nearest, ties to even) as the C code does.
* `uint32_t` values are naturals, reduced modulo `2 ^ 32` where the C code can
  overflow.
* The conversion of a `float` argument to a `uint32_t` parameter is the C
  conversion: the fractional part is discarded, and the behaviour is undefined
  (here `none`) when the truncated value is not representable.
* Loops that wait on the interrupt driven counter take a fuel argument; one
  unit of fuel is one evaluation of the loop condition.
-/

namespace Dash

/-! ## Configuration -/

/-- Desired update rate of the LED PWM signal (`#define PWM_FREQ 500`). -/
def PWM_FREQ : Nat := 500

/-- The modulus of `uint32_t` arithmetic. -/
def UINT32_MOD : Nat := 2 ^ 32

/-! ## HSV to RGB conversion (`pwm.c` lines 157-201) -/

/-- The three outputs `*r`, `*g`, `*b` of `hsv_to_rgb`. -/
structure RGB where
  r : ℚ
  g : ℚ
  b : ℚ
  deriving DecidableEq

/-- The function `hsv_to_rgb` of `pwm.c`.  `h0` is the parameter `h` on entry;
the C code overwrites it with `h / 60`.  `floor` yields the integer `i`; the
range of the C type `int` is not modelled (for hues in `[0, 360)` the sector
is at most 5). -/
def hsv_to_rgb (h0 s v : ℚ) : RGB :=
  if s = 0 then
    -- achromatic (grey)
    { r := v, g := v, b := v }
  else
    let h : ℚ := h0 / 60      -- sector 0 to 5
    let i : Int := Int.floor h
    let f : ℚ := h - (i : ℚ)  -- fractional part of h
    let p : ℚ := v * (1 - s)
    let q : ℚ := v * (1 - s * f)
    let t : ℚ := v * (1 - s * (1 - f))
    match i with
    | 0 => { r := v, g := t, b := p }
    | 1 => { r := q, g := v, b := p }
    | 2 => { r := p, g := v, b := t }
    | 3 => { r := p, g := q, b := v }
    | 4 => { r := t, g := p, b := v }
    | _ => { r := v, g := p, b := q }   -- default: case 5

/-- The conversion as the specification words it: grey when `s = 0`, otherwise
the row of the sector table for `i = floor (h / 60)`.  The table has rows for
the sectors `0` to `5` only, so no colour is defined for another sector. -/
def hsv_to_rgb_spec (h s v : ℚ) : Option RGB :=
  if s = 0 then some ⟨v, v, v⟩
  else
    let i : Int := Int.floor (h / 60)
    let f : ℚ := h / 60 - (i : ℚ)
    let p : ℚ := v * (1 - s)
    let q : ℚ := v * (1 - s * f)
    let t : ℚ := v * (1 - s * (1 - f))
    if i = 0 then some ⟨v, t, p⟩
    else if i = 1 then some ⟨q, v, p⟩
    else if i = 2 then some ⟨p, v, t⟩
    else if i = 3 then some ⟨p, q, v⟩
    else if i = 4 then some ⟨t, p, v⟩
    else if i = 5 then some ⟨v, p, q⟩
    else none

/-! ## Millisecond clock (`pwm.c` lines 21-52) -/

/-- The global `volatile uint32_t systick_millis`, together with a ghost count
of the systick interrupts taken so far.  The ghost field is not program state:
it measures elapsed ticks and never wraps. -/
structure Clock where
  systick_millis : Nat
  ticks : Nat
  deriving DecidableEq

/-- The interrupt handler `sys_tick_handler`: `systick_millis++` on a
`uint32_t`, and one more tick elapsed. -/
def sys_tick_handler (c : Clock) : Clock :=
  { systick_millis := (c.systick_millis + 1) % UINT32_MOD, ticks := c.ticks + 1 }

/-- The loop `while (target > systick_millis);` of `delay`.  Each unit of fuel
is one evaluation of the condition; when the condition holds the loop spins
until the next systick interrupt, after which the counter is read again. -/
def delay_wait : Nat → Nat → Clock → Option Clock
  | 0, _, _ => none
  | fuel + 1, target, c =>
    if target > c.systick_millis then delay_wait fuel target (sys_tick_handler c)
    else some c

/-- The function `delay` of `pwm.c`: `target = systick_millis + milliseconds`
in `uint32_t` arithmetic, then the busy-wait loop. -/
def delay (fuel : Nat) (milliseconds : Nat) (c : Clock) : Option Clock :=
  let target : Nat := (c.systick_millis + milliseconds) % UINT32_MOD
  delay_wait fuel target c

/-! ## Binary32 rounding -/

/-- Rounding of a rational to the nearest integer, ties to the even one. -/
def round_half_even (y : ℚ) : Int :=
  if Int.fract y < 1 / 2 then Int.floor y
  else if 1 / 2 < Int.fract y then Int.floor y + 1
  else if Int.floor y % 2 = 0 then Int.floor y
  else Int.floor y + 1

/-- Spacing of the binary32 values around `x`: `2 ^ (e - 23)` for the binade
`2 ^ e ≤ |x| < 2 ^ (e + 1)`, and `2 ^ (-149)` in the subnormal range. -/
def f32_ulp (x : ℚ) : ℚ := (2 : ℚ) ^ (max (Int.log 2 |x|) (-126) - 23)

/-- Rounding of an exact value to binary32, round to nearest, ties to even.
The exponent is not bounded above: a value beyond the binary32 range stays
finite and at least `2 ^ 127` in size, so `float_to_uint32` is undefined on it
as it is on an infinity. -/
def f32_round (x : ℚ) : ℚ := (round_half_even (x / f32_ulp x) : ℚ) * f32_ulp x

/-- The C conversion of an `int` operand to `float`. -/
def int_to_float (n : Nat) : ℚ := f32_round (n : ℚ)

/-- The C product of two `float` operands. -/
def f32_mul (a b : ℚ) : ℚ := f32_round (a * b)

/-! ## PWM timers (`pwm.c` lines 55-150) -/

/-- The timer registers the example writes after reset: the period (auto
reload) of `TIM1` and `TIM4` and the compare value of the three channels wired
to the LEDs (`TIM1` channel 1 blue, `TIM4` channel 1 red, `TIM4` channel 2
green). -/
structure Timers where
  tim1_period : Nat
  tim4_period : Nat
  tim1_oc1 : Nat
  tim4_oc1 : Nat
  tim4_oc2 : Nat
  deriving DecidableEq

/-- The timer peripherals used by the example. -/
inductive TimerId where
  | TIM1
  | TIM4
  deriving DecidableEq

/-- The output compare channels used by the example. -/
inductive OcId where
  | TIM_OC1
  | TIM_OC2
  deriving DecidableEq

/-- Library call `timer_set_period(timer, period)`: stores the period of a
timer. -/
def timer_set_period (t : Timers) (tim : TimerId) (period : Nat) : Timers :=
  match tim with
  | .TIM1 => { t with tim1_period := period }
  | .TIM4 => { t with tim4_period := period }

/-- Library call `timer_set_oc_value(timer, oc, value)`: stores the compare
value (threshold) of a channel.  `TIM1` channel 2 is not connected to a LED and
is not tracked. -/
def timer_set_oc_value (t : Timers) (tim : TimerId) (oc : OcId) (value : Nat) : Timers :=
  match tim, oc with
  | .TIM1, .TIM_OC1 => { t with tim1_oc1 := value }
  | .TIM4, .TIM_OC1 => { t with tim4_oc1 := value }
  | .TIM4, .TIM_OC2 => { t with tim4_oc2 := value }
  | .TIM1, .TIM_OC2 => t

/-- The register writes of `pwm_setup` that the compare logic depends on: both
periods are `1000000/PWM_FREQ` (integer division) and the three thresholds
start at zero.  Clock enables, pin routing, timer mode, prescaler and channel
mode are configuration outside this model. -/
def pwm_setup (t : Timers) : Timers :=
  let t := timer_set_period t .TIM1 (1000000 / PWM_FREQ)
  let t := timer_set_period t .TIM4 (1000000 / PWM_FREQ)
  let t := timer_set_oc_value t .TIM1 .TIM_OC1 0   -- Blue LED
  let t := timer_set_oc_value t .TIM4 .TIM_OC1 0   -- Red LED
  let t := timer_set_oc_value t .TIM4 .TIM_OC2 0   -- Green LED
  t

/-- The C conversion of a `float` argument to the `uint32_t` parameter of
`timer_set_oc_value`: the value is truncated toward zero; the behaviour is
undefined when the truncated value cannot be represented. -/
def float_to_uint32 (x : ℚ) : Option Nat :=
  if -1 < x ∧ x < (UINT32_MOD : ℚ) then
    some (Int.toNat (if 0 ≤ x then Int.floor x else Int.ceil x))
  else none

/-- The function `led_color` of `pwm.c`: the integer `1000000/PWM_FREQ` is
converted to `float`, each intensity is multiplied by it in `float`, and the
product is passed to the `uint32_t` parameter of `timer_set_oc_value`. -/
def led_color (t : Timers) (red green blue : ℚ) : Option Timers := do
  let vb ← float_to_uint32 (f32_mul blue (int_to_float (1000000 / PWM_FREQ)))
  let t := timer_set_oc_value t .TIM1 .TIM_OC1 vb
  let vr ← float_to_uint32 (f32_mul red (int_to_float (1000000 / PWM_FREQ)))
  let t := timer_set_oc_value t .TIM4 .TIM_OC1 vr
  let vg ← float_to_uint32 (f32_mul green (int_to_float (1000000 / PWM_FREQ)))
  let t := timer_set_oc_value t .TIM4 .TIM_OC2 vg
  pure t

/-! ## Animation loop (`pwm.c` lines 203-227) -/

/-- State of `main` at the top of the loop.  `pushed` is a ghost log of the hue
arguments of the calls `hsv_to_rgb(hue, 1.0, 1.0, ...)` whose colour was handed
to `led_color`, oldest first. -/
structure MainState where
  hue : ℚ
  timers : Timers
  clock : Clock
  pushed : List ℚ
  deriving DecidableEq

/-- One iteration of the `while (true)` loop of `main`. -/
def main_iter (fuel : Nat) (st : MainState) : Option MainState := do
  -- Convert the current hue to a RGB color.
  let c := hsv_to_rgb st.hue 1 1
  -- Set the LED to the specified color.
  let timers ← led_color st.timers c.r c.g c.b
  -- Now increment the hue, wrapping back to zero when necessary.
  let hue := st.hue + 1
  let hue := if hue ≥ 360 then 0 else hue
  let clock ← delay fuel 10 st.clock
  pure { hue := hue, timers := timers, clock := clock, pushed := st.pushed ++ [st.hue] }

/-- The first `k` iterations of the loop of `main`. -/
def main_loop (fuel : Nat) : Nat → MainState → Option MainState
  | 0, st => some st
  | k + 1, st => (main_iter fuel st).bind (main_loop fuel k)

/-- State of `main` when the loop is entered: `systick_setup(); pwm_setup();
float hue = 0.0;`.  The counter may already have advanced while the timers
were set up, so the clock on entry is a parameter. -/
def main_entry (t : Timers) (c : Clock) : MainState :=
  { hue := 0, timers := pwm_setup t, clock := c, pushed := [] }

/-! ## Auxiliary definitions for the statements and proofs

On `[0, 360)` each output of `hsv_to_rgb` is `v - s * v * w (h / 60)` for a
trapezoid wave `w` built from `min` and `max`; the waves are the tool for the
bounds and the continuity estimate. -/

/-- Wave of the red output. -/
def wave_r (x : ℚ) : ℚ := max 0 (min 1 (min (x - 1) (5 - x)))

/-- Wave of the green output. -/
def wave_g (x : ℚ) : ℚ := max 0 (min 1 (max (1 - x) (x - 3)))

/-- Wave of the blue output. -/
def wave_b (x : ℚ) : ℚ := max 0 (min 1 (max (3 - x) (x - 5)))

/-- Number of outputs of a colour that are exactly `1`. -/
def ones (c : RGB) : Nat :=
  (if c.r = 1 then 1 else 0) + (if c.g = 1 then 1 else 0) + (if c.b = 1 then 1 else 0)

/-- The hues the loop converts in its first `k` iterations when it is entered
with the whole hue `n`: `n`, `n + 1`, ... reduced modulo 360. -/
def hue_run (n k : Nat) : List ℚ :=
  (List.range k).map (fun j => (((n + j) % 360 : Nat) : ℚ))


/-! ## Sectors of the hue circle -/

theorem floor_sector (h : ℚ) (k : Int) (h1 : 60 * (k : ℚ) ≤ h) (h2 : h < 60 * ((k : ℚ) + 1)) :
    Int.floor (h / 60) = k := by
  rw [Int.floor_eq_iff]
  constructor
  · rw [le_div_iff₀ (by norm_num)]; linarith
  · rw [div_lt_iff₀ (by norm_num)]; linarith

/-- A hue in `[0, 360)` lies in one of the six sectors. -/
theorem sector_cases (h : ℚ) (h0 : 0 ≤ h) (h360 : h < 360) :
    ∃ k : Int, (k = 0 ∨ k = 1 ∨ k = 2 ∨ k = 3 ∨ k = 4 ∨ k = 5) ∧
      Int.floor (h / 60) = k ∧ (k : ℚ) ≤ h / 60 ∧ h / 60 < (k : ℚ) + 1 := by
  have hlo : 0 ≤ Int.floor (h / 60) := Int.floor_nonneg.mpr (by positivity)
  have hhi : Int.floor (h / 60) < 6 := by
    rw [Int.floor_lt]
    rw [div_lt_iff₀ (by norm_num)]
    push_cast
    linarith
  refine ⟨Int.floor (h / 60), by omega, rfl, Int.floor_le _, Int.lt_floor_add_one _⟩

/-! ## Closed form of the conversion -/

theorem wave_r_val (x : ℚ) :
    (x ≤ 1 → wave_r x = 0) ∧ (1 ≤ x → x ≤ 2 → wave_r x = x - 1) ∧
    (2 ≤ x → x ≤ 4 → wave_r x = 1) ∧ (4 ≤ x → x ≤ 5 → wave_r x = 5 - x) ∧
    (5 ≤ x → wave_r x = 0) := by
  unfold wave_r
  simp only [max_def, min_def]
  refine ⟨?_, ?_, ?_, ?_, ?_⟩ <;> intros <;> split_ifs <;> linarith

theorem wave_g_val (x : ℚ) :
    (0 ≤ x → x ≤ 1 → wave_g x = 1 - x) ∧ (1 ≤ x → x ≤ 3 → wave_g x = 0) ∧
    (3 ≤ x → x ≤ 4 → wave_g x = x - 3) ∧ (4 ≤ x → wave_g x = 1) := by
  unfold wave_g
  simp only [max_def, min_def]
  refine ⟨?_, ?_, ?_, ?_⟩ <;> intros <;> split_ifs <;> linarith

theorem wave_b_val (x : ℚ) :
    (x ≤ 2 → wave_b x = 1) ∧ (2 ≤ x → x ≤ 3 → wave_b x = 3 - x) ∧
    (3 ≤ x → x ≤ 5 → wave_b x = 0) ∧ (5 ≤ x → x ≤ 6 → wave_b x = x - 5) := by
  unfold wave_b
  simp only [max_def, min_def]
  refine ⟨?_, ?_, ?_, ?_⟩ <;> intros <;> split_ifs <;> linarith

theorem wave_r_bounds (x : ℚ) : 0 ≤ wave_r x ∧ wave_r x ≤ 1 :=
  ⟨le_max_left _ _, max_le zero_le_one (min_le_left _ _)⟩

theorem wave_g_bounds (x : ℚ) : 0 ≤ wave_g x ∧ wave_g x ≤ 1 :=
  ⟨le_max_left _ _, max_le zero_le_one (min_le_left _ _)⟩

theorem wave_b_bounds (x : ℚ) : 0 ≤ wave_b x ∧ wave_b x ≤ 1 :=
  ⟨le_max_left _ _, max_le zero_le_one (min_le_left _ _)⟩

theorem wave_r_lipschitz (x y : ℚ) : |wave_r x - wave_r y| ≤ |x - y| := by
  have h1 := le_abs_self (x - y)
  have h2 := neg_abs_le (x - y)
  rw [abs_le]
  unfold wave_r
  simp only [max_def, min_def]
  constructor <;> split_ifs <;> linarith

theorem wave_g_lipschitz (x y : ℚ) : |wave_g x - wave_g y| ≤ |x - y| := by
  have h1 := le_abs_self (x - y)
  have h2 := neg_abs_le (x - y)
  rw [abs_le]
  unfold wave_g
  simp only [max_def, min_def]
  constructor <;> split_ifs <;> linarith

theorem wave_b_lipschitz (x y : ℚ) : |wave_b x - wave_b y| ≤ |x - y| := by
  have h1 := le_abs_self (x - y)
  have h2 := neg_abs_le (x - y)
  rw [abs_le]
  unfold wave_b
  simp only [max_def, min_def]
  constructor <;> split_ifs <;> linarith

/-- The closed form of `hsv_to_rgb` on hues in `[0, 360)`. -/
theorem hsv_to_rgb_closed (h s v : ℚ) (h0 : 0 ≤ h) (h360 : h < 360) :
    hsv_to_rgb h s v =
      ⟨v - s * v * wave_r (h / 60), v - s * v * wave_g (h / 60), v - s * v * wave_b (h / 60)⟩ := by
  by_cases hs : s = 0
  · simp [hsv_to_rgb, hs]
  · obtain ⟨k, hk, hfl, hlo, hhi⟩ := sector_cases h h0 h360
    obtain ⟨r1, r2, r3, r4, r5⟩ := wave_r_val (h / 60)
    obtain ⟨g1, g2, g3, g4⟩ := wave_g_val (h / 60)
    obtain ⟨b1, b2, b3, b4⟩ := wave_b_val (h / 60)
    simp only [hsv_to_rgb, if_neg hs, hfl]
    rcases hk with rfl | rfl | rfl | rfl | rfl | rfl <;> norm_num at hlo hhi
    · rw [r1 (by linarith), g1 (by linarith) (by linarith), b1 (by linarith)]
      simp only [Int.cast_zero, RGB.mk.injEq]
      refine ⟨?_, ?_, ?_⟩ <;> ring
    · rw [r2 (by linarith) (by linarith), g2 (by linarith) (by linarith), b1 (by linarith)]
      simp only [Int.cast_one, RGB.mk.injEq]
      refine ⟨?_, ?_, ?_⟩ <;> ring
    · rw [r3 (by linarith) (by linarith), g2 (by linarith) (by linarith),
        b2 (by linarith) (by linarith)]
      simp only [Int.cast_ofNat, RGB.mk.injEq]
      refine ⟨?_, ?_, ?_⟩ <;> ring
    · rw [r3 (by linarith) (by linarith), g3 (by linarith) (by linarith),
        b3 (by linarith) (by linarith)]
      simp only [Int.cast_ofNat, RGB.mk.injEq]
      refine ⟨?_, ?_, ?_⟩ <;> ring
    · rw [r4 (by linarith) (by linarith), g4 (by linarith), b3 (by linarith) (by linarith)]
      simp only [Int.cast_ofNat, RGB.mk.injEq]
      refine ⟨?_, ?_, ?_⟩ <;> ring
    · rw [r5 (by linarith), g4 (by linarith), b4 (by linarith) (by linarith)]
      simp only [Int.cast_ofNat, RGB.mk.injEq]
      refine ⟨?_, ?_, ?_⟩ <;> ring


theorem wave_r_eq_zero_iff (x : ℚ) : wave_r x = 0 ↔ x ≤ 1 ∨ 5 ≤ x := by
  constructor
  · intro hw
    by_contra hc
    push_neg at hc
    obtain ⟨c1, c2⟩ := hc
    unfold wave_r at hw
    simp only [max_def, min_def] at hw
    split_ifs at hw <;> linarith
  · rintro (hx | hx)
    · exact (wave_r_val x).1 hx
    · exact (wave_r_val x).2.2.2.2 hx

theorem wave_g_eq_zero_iff (x : ℚ) : wave_g x = 0 ↔ 1 ≤ x ∧ x ≤ 3 := by
  constructor
  · intro hw
    unfold wave_g at hw
    simp only [max_def, min_def] at hw
    constructor <;> · by_contra hc; push_neg at hc; split_ifs at hw <;> linarith
  · rintro ⟨hx, hy⟩
    exact (wave_g_val x).2.1 hx hy

theorem wave_b_eq_zero_iff (x : ℚ) : wave_b x = 0 ↔ 3 ≤ x ∧ x ≤ 5 := by
  constructor
  · intro hw
    unfold wave_b at hw
    simp only [max_def, min_def] at hw
    constructor <;> · by_contra hc; push_neg at hc; split_ifs at hw <;> linarith
  · rintro ⟨hx, hy⟩
    exact (wave_b_val x).2.2.1 hx hy

/-- Counting the hue intervals on which an output is saturated. -/
theorem ones_count (h : ℚ) :
    ((if h ≤ 60 ∨ 300 ≤ h then 1 else 0) + (if 60 ≤ h ∧ h ≤ 180 then 1 else 0) +
      (if 180 ≤ h ∧ h ≤ 300 then 1 else 0) : Nat) =
    if h = 60 ∨ h = 180 ∨ h = 300 then 2 else 1 := by
  rcases lt_trichotomy h 60 with a | a | a
  · have f1 : h ≤ 60 := a.le
    have f2 : ¬ 60 ≤ h := by linarith
    have f3 : ¬ 180 ≤ h := by linarith
    have f4 : h ≠ 60 := by linarith
    have f5 : h ≠ 180 := by intro e; linarith
    have f6 : h ≠ 300 := by intro e; linarith
    simp [f1, f2, f3, f4, f5, f6]
  · subst a; norm_num
  rcases lt_trichotomy h 180 with b | b | b
  · have f1 : ¬ h ≤ 60 := by linarith
    have f2 : ¬ 300 ≤ h := by linarith
    have f3 : 60 ≤ h := a.le
    have f4 : h ≤ 180 := b.le
    have f5 : ¬ 180 ≤ h := by linarith
    have f6 : h ≠ 60 := by intro e; linarith
    have f7 : h ≠ 180 := by intro e; linarith
    have f8 : h ≠ 300 := by intro e; linarith
    simp [f1, f2, f3, f4, f5, f6, f7, f8]
  · subst b; norm_num
  rcases lt_trichotomy h 300 with c | c | c
  · have f1 : ¬ h ≤ 60 := by linarith
    have f2 : ¬ 300 ≤ h := by linarith
    have f3 : ¬ h ≤ 180 := by linarith
    have f4 : 180 ≤ h := b.le
    have f5 : h ≤ 300 := c.le
    have f6 : h ≠ 60 := by intro e; linarith
    have f7 : h ≠ 180 := by intro e; linarith
    have f8 : h ≠ 300 := by intro e; linarith
    simp [f1, f2, f3, f4, f5, f6, f7, f8]
  · subst c; norm_num
  · have f1 : ¬ h ≤ 60 := by linarith
    have f2 : 300 ≤ h := c.le
    have f3 : ¬ h ≤ 180 := by linarith
    have f4 : ¬ h ≤ 300 := by linarith
    have f6 : h ≠ 60 := by intro e; linarith
    have f7 : h ≠ 180 := by intro e; linarith
    have f8 : h ≠ 300 := by intro e; linarith
    simp [f1, f2, f3, f4, f6, f7, f8]

/-- Which outputs are exactly `1` at full saturation and value. -/
theorem hsv_full_eq_one (h : ℚ) (h0 : 0 ≤ h) (h360 : h < 360) :
    ((hsv_to_rgb h 1 1).r = 1 ↔ h ≤ 60 ∨ 300 ≤ h) ∧
    ((hsv_to_rgb h 1 1).g = 1 ↔ 60 ≤ h ∧ h ≤ 180) ∧
    ((hsv_to_rgb h 1 1).b = 1 ↔ 180 ≤ h ∧ h ≤ 300) := by
  rw [hsv_to_rgb_closed h 1 1 h0 h360]
  have e1 : h / 60 ≤ 1 ↔ h ≤ 60 := by rw [div_le_iff₀ (by norm_num)]; norm_num
  have e2 : 5 ≤ h / 60 ↔ 300 ≤ h := by rw [le_div_iff₀ (by norm_num)]; norm_num
  have e3 : 1 ≤ h / 60 ↔ 60 ≤ h := by rw [le_div_iff₀ (by norm_num)]; norm_num
  have e4 : h / 60 ≤ 3 ↔ h ≤ 180 := by rw [div_le_iff₀ (by norm_num)]; norm_num
  have e5 : 3 ≤ h / 60 ↔ 180 ≤ h := by rw [le_div_iff₀ (by norm_num)]; norm_num
  have e6 : h / 60 ≤ 5 ↔ h ≤ 300 := by rw [div_le_iff₀ (by norm_num)]; norm_num
  refine ⟨?_, ?_, ?_⟩
  · rw [← e1, ← e2, ← wave_r_eq_zero_iff]
    constructor <;> intro hh <;> linarith
  · rw [← e3, ← e4, ← wave_g_eq_zero_iff]
    constructor <;> intro hh <;> linarith
  · rw [← e5, ← e6, ← wave_b_eq_zero_iff]
    constructor <;> intro hh <;> linarith

/-- Every output of `hsv_to_rgb` lies between `v * (1 - s)` and `v`. -/
theorem hsv_to_rgb_between (h s v : ℚ) (h0 : 0 ≤ h) (h360 : h < 360)
    (hs0 : 0 ≤ s) (hv0 : 0 ≤ v) :
    (v * (1 - s) ≤ (hsv_to_rgb h s v).r ∧ (hsv_to_rgb h s v).r ≤ v) ∧
    (v * (1 - s) ≤ (hsv_to_rgb h s v).g ∧ (hsv_to_rgb h s v).g ≤ v) ∧
    (v * (1 - s) ≤ (hsv_to_rgb h s v).b ∧ (hsv_to_rgb h s v).b ≤ v) := by
  rw [hsv_to_rgb_closed h s v h0 h360]
  have hsv : 0 ≤ s * v := mul_nonneg hs0 hv0
  obtain ⟨r0, r1⟩ := wave_r_bounds (h / 60)
  obtain ⟨g0, g1⟩ := wave_g_bounds (h / 60)
  obtain ⟨b0, b1⟩ := wave_b_bounds (h / 60)
  have hr0 := mul_nonneg hsv r0
  have hg0 := mul_nonneg hsv g0
  have hb0 := mul_nonneg hsv b0
  have hr1 := mul_le_of_le_one_right hsv r1
  have hg1 := mul_le_of_le_one_right hsv g1
  have hb1 := mul_le_of_le_one_right hsv b1
  refine ⟨⟨?_, ?_⟩, ⟨?_, ?_⟩, ⟨?_, ?_⟩⟩ <;> simp only <;> linarith

/-- Every output of `hsv_to_rgb` lies in `[0, 1]`. -/
theorem hsv_to_rgb_unit (h s v : ℚ) (h0 : 0 ≤ h) (h360 : h < 360)
    (hs0 : 0 ≤ s) (hs1 : s ≤ 1) (hv0 : 0 ≤ v) (hv1 : v ≤ 1) :
    (0 ≤ (hsv_to_rgb h s v).r ∧ (hsv_to_rgb h s v).r ≤ 1) ∧
    (0 ≤ (hsv_to_rgb h s v).g ∧ (hsv_to_rgb h s v).g ≤ 1) ∧
    (0 ≤ (hsv_to_rgb h s v).b ∧ (hsv_to_rgb h s v).b ≤ 1) := by
  obtain ⟨⟨a1, a2⟩, ⟨a3, a4⟩, ⟨a5, a6⟩⟩ := hsv_to_rgb_between h s v h0 h360 hs0 hv0
  have hp : 0 ≤ v * (1 - s) := mul_nonneg hv0 (by linarith)
  refine ⟨⟨?_, ?_⟩, ⟨?_, ?_⟩, ⟨?_, ?_⟩⟩ <;> linarith

/-- Each output moves by at most `s * v / 60` per degree of hue. -/
theorem hsv_to_rgb_lipschitz_aux (h1 h2 s v : ℚ) (h1lo : 0 ≤ h1) (h1hi : h1 < 360)
    (h2lo : 0 ≤ h2) (h2hi : h2 < 360) (hs0 : 0 ≤ s) (hv0 : 0 ≤ v) :
    |(hsv_to_rgb h1 s v).r - (hsv_to_rgb h2 s v).r| ≤ s * v * |h1 - h2| / 60 ∧
    |(hsv_to_rgb h1 s v).g - (hsv_to_rgb h2 s v).g| ≤ s * v * |h1 - h2| / 60 ∧
    |(hsv_to_rgb h1 s v).b - (hsv_to_rgb h2 s v).b| ≤ s * v * |h1 - h2| / 60 := by
  rw [hsv_to_rgb_closed h1 s v h1lo h1hi, hsv_to_rgb_closed h2 s v h2lo h2hi]
  have hsv : 0 ≤ s * v := mul_nonneg hs0 hv0
  have hx : |h1 / 60 - h2 / 60| = |h1 - h2| / 60 := by
    rw [← sub_div, abs_div]; norm_num
  have key : ∀ a b : ℚ, |a - b| ≤ |h1 / 60 - h2 / 60| →
      |(v - s * v * a) - (v - s * v * b)| ≤ s * v * |h1 - h2| / 60 := by
    intro a b hab
    have e : (v - s * v * a) - (v - s * v * b) = -(s * v * (a - b)) := by ring
    rw [e, abs_neg, abs_mul, abs_of_nonneg hsv, mul_div_assoc, ← hx]
    exact mul_le_mul_of_nonneg_left hab hsv
  exact ⟨key _ _ (wave_r_lipschitz _ _), key _ _ (wave_g_lipschitz _ _),
    key _ _ (wave_b_lipschitz _ _)⟩

theorem hsv_to_rgb_0 : hsv_to_rgb 0 1 1 = ⟨1, 0, 0⟩ := by
  have := floor_sector 0 0 (by norm_num) (by norm_num)
  simp [hsv_to_rgb, this]

theorem hsv_to_rgb_120 : hsv_to_rgb 120 1 1 = ⟨0, 1, 0⟩ := by
  have := floor_sector 120 2 (by norm_num) (by norm_num)
  simp [hsv_to_rgb, this]
  norm_num

theorem hsv_to_rgb_240 : hsv_to_rgb 240 1 1 = ⟨0, 0, 1⟩ := by
  have := floor_sector 240 4 (by norm_num) (by norm_num)
  simp [hsv_to_rgb, this]
  norm_num

theorem hsv_to_rgb_60 : hsv_to_rgb 60 1 1 = ⟨1, 1, 0⟩ := by
  norm_num [hsv_to_rgb]

/-! ## Claims about the conversion -/

/-- C1: for a hue in `[0, 360)` and saturation and value in `[0, 1]` the code
computes the colour of the reference definition (grey for `s = 0`, otherwise
the table row of sector `floor (h / 60)`), and the three primary colour
checkpoints hold. -/
theorem C1_hsv_to_rgb_matches_reference (h s v : ℚ) (h0 : 0 ≤ h) (h360 : h < 360)
    (_hs0 : 0 ≤ s) (_hs1 : s ≤ 1) (_hv0 : 0 ≤ v) (_hv1 : v ≤ 1) :
    hsv_to_rgb_spec h s v = some (hsv_to_rgb h s v) ∧
    hsv_to_rgb 0 1 1 = ⟨1, 0, 0⟩ ∧ hsv_to_rgb 120 1 1 = ⟨0, 1, 0⟩ ∧
    hsv_to_rgb 240 1 1 = ⟨0, 0, 1⟩ := by
  refine ⟨?_, hsv_to_rgb_0, hsv_to_rgb_120, hsv_to_rgb_240⟩
  by_cases hs : s = 0
  · simp [hsv_to_rgb_spec, hsv_to_rgb, hs]
  · obtain ⟨k, hk, hfl, -, -⟩ := sector_cases h h0 h360
    simp only [hsv_to_rgb_spec, hsv_to_rgb, if_neg hs, hfl]
    rcases hk with rfl | rfl | rfl | rfl | rfl | rfl <;> simp

/-- Witness of C1 at hue 200, saturation 1/2 and value 3/4. -/
theorem C1_hsv_to_rgb_matches_reference_witness :
    hsv_to_rgb_spec 200 (1 / 2) (3 / 4) = some (hsv_to_rgb 200 (1 / 2) (3 / 4)) ∧
    hsv_to_rgb 0 1 1 = ⟨1, 0, 0⟩ ∧ hsv_to_rgb 120 1 1 = ⟨0, 1, 0⟩ ∧
    hsv_to_rgb 240 1 1 = ⟨0, 0, 1⟩ :=
  C1_hsv_to_rgb_matches_reference 200 (1 / 2) (3 / 4) (by norm_num) (by norm_num)
    (by norm_num) (by norm_num) (by norm_num) (by norm_num)

/-- C2 fails as stated: at hue 60 (yellow) the code returns `(1, 1, 0)`, two
outputs equal to `1`, not exactly one. -/
theorem C2_counterexample :
    (0 : ℚ) ≤ 60 ∧ (60 : ℚ) < 360 ∧ hsv_to_rgb 60 1 1 = ⟨1, 1, 0⟩ ∧
    ones (hsv_to_rgb 60 1 1) ≠ 1 := by
  refine ⟨by norm_num, by norm_num, hsv_to_rgb_60, ?_⟩
  rw [hsv_to_rgb_60]
  simp [ones]

/-- C2 amended: for every hue in `[0, 360)` all three outputs of
`hsv_to_rgb h 1 1` lie in `[0, 1]`; exactly one of them equals `1` when the hue
is none of 60, 180, 300, and exactly two of them equal `1` at these three
hues. -/
theorem C2_full_saturation_ones (h : ℚ) (h0 : 0 ≤ h) (h360 : h < 360) :
    (0 ≤ (hsv_to_rgb h 1 1).r ∧ (hsv_to_rgb h 1 1).r ≤ 1) ∧
    (0 ≤ (hsv_to_rgb h 1 1).g ∧ (hsv_to_rgb h 1 1).g ≤ 1) ∧
    (0 ≤ (hsv_to_rgb h 1 1).b ∧ (hsv_to_rgb h 1 1).b ≤ 1) ∧
    ones (hsv_to_rgb h 1 1) = if h = 60 ∨ h = 180 ∨ h = 300 then 2 else 1 := by
  obtain ⟨ur, ug, ub⟩ := hsv_to_rgb_unit h 1 1 h0 h360 (by norm_num) (by norm_num)
    (by norm_num) (by norm_num)
  refine ⟨ur, ug, ub, ?_⟩
  obtain ⟨er, eg, eb⟩ := hsv_full_eq_one h h0 h360
  unfold ones
  simp only [er, eg, eb]
  exact ones_count h

/-- Witness of the amended C2 at hue 90. -/
theorem C2_full_saturation_ones_witness :
    (0 ≤ (hsv_to_rgb 90 1 1).r ∧ (hsv_to_rgb 90 1 1).r ≤ 1) ∧
    (0 ≤ (hsv_to_rgb 90 1 1).g ∧ (hsv_to_rgb 90 1 1).g ≤ 1) ∧
    (0 ≤ (hsv_to_rgb 90 1 1).b ∧ (hsv_to_rgb 90 1 1).b ≤ 1) ∧
    ones (hsv_to_rgb 90 1 1) = if (90 : ℚ) = 60 ∨ (90 : ℚ) = 180 ∨ (90 : ℚ) = 300 then 2 else 1 :=
  C2_full_saturation_ones 90 (by norm_num) (by norm_num)

/-- C3: on hues in `[0, 360)`, with saturation and value in `[0, 1]`, each
output of `hsv_to_rgb` changes by at most `s * v * |h1 - h2| / 60` between two
hues; in particular the colours at hue 59.999 and at hue 60 differ by at most
`0.001 / 60` in each output. -/
theorem C3_hsv_to_rgb_continuous (h1 h2 s v : ℚ) (h1lo : 0 ≤ h1) (h1hi : h1 < 360)
    (h2lo : 0 ≤ h2) (h2hi : h2 < 360) (hs0 : 0 ≤ s) (_hs1 : s ≤ 1) (hv0 : 0 ≤ v)
    (_hv1 : v ≤ 1) :
    (|(hsv_to_rgb h1 s v).r - (hsv_to_rgb h2 s v).r| ≤ s * v * |h1 - h2| / 60 ∧
     |(hsv_to_rgb h1 s v).g - (hsv_to_rgb h2 s v).g| ≤ s * v * |h1 - h2| / 60 ∧
     |(hsv_to_rgb h1 s v).b - (hsv_to_rgb h2 s v).b| ≤ s * v * |h1 - h2| / 60) ∧
    (|(hsv_to_rgb (59999 / 1000) 1 1).r - (hsv_to_rgb 60 1 1).r| ≤ (1 / 1000) / 60 ∧
     |(hsv_to_rgb (59999 / 1000) 1 1).g - (hsv_to_rgb 60 1 1).g| ≤ (1 / 1000) / 60 ∧
     |(hsv_to_rgb (59999 / 1000) 1 1).b - (hsv_to_rgb 60 1 1).b| ≤ (1 / 1000) / 60) := by
  refine ⟨hsv_to_rgb_lipschitz_aux h1 h2 s v h1lo h1hi h2lo h2hi hs0 hv0, ?_⟩
  have e : (1 : ℚ) * 1 * |59999 / 1000 - 60| / 60 = (1 / 1000) / 60 := by
    rw [abs_of_nonpos (by norm_num)]; norm_num
  rw [← e]
  exact hsv_to_rgb_lipschitz_aux (59999 / 1000) 60 1 1 (by norm_num) (by norm_num)
    (by norm_num) (by norm_num) (by norm_num) (by norm_num)

/-- Witness of C3 at hues 100 and 130, saturation 1/2 and value 1. -/
theorem C3_hsv_to_rgb_continuous_witness :
    (|(hsv_to_rgb 100 (1 / 2) 1).r - (hsv_to_rgb 130 (1 / 2) 1).r| ≤
        1 / 2 * 1 * |(100 : ℚ) - 130| / 60 ∧
     |(hsv_to_rgb 100 (1 / 2) 1).g - (hsv_to_rgb 130 (1 / 2) 1).g| ≤
        1 / 2 * 1 * |(100 : ℚ) - 130| / 60 ∧
     |(hsv_to_rgb 100 (1 / 2) 1).b - (hsv_to_rgb 130 (1 / 2) 1).b| ≤
        1 / 2 * 1 * |(100 : ℚ) - 130| / 60) ∧
    (|(hsv_to_rgb (59999 / 1000) 1 1).r - (hsv_to_rgb 60 1 1).r| ≤ (1 / 1000) / 60 ∧
     |(hsv_to_rgb (59999 / 1000) 1 1).g - (hsv_to_rgb 60 1 1).g| ≤ (1 / 1000) / 60 ∧
     |(hsv_to_rgb (59999 / 1000) 1 1).b - (hsv_to_rgb 60 1 1).b| ≤ (1 / 1000) / 60) :=
  C3_hsv_to_rgb_continuous 100 130 (1 / 2) 1 (by norm_num) (by norm_num) (by norm_num)
    (by norm_num) (by norm_num) (by norm_num) (by norm_num) (by norm_num)


/-! ## The busy-wait loop -/

/-- With a target below `2 ^ 32` the loop returns after `target - systick_millis`
ticks (none when the counter has already reached the target), given fuel for
one more evaluation of the condition than ticks. -/
theorem delay_wait_returns (target : Nat) (ht : target < UINT32_MOD) :
    ∀ (n fuel : Nat) (c : Clock), target - c.systick_millis = n → n < fuel →
      delay_wait fuel target c = some ⟨max c.systick_millis target, c.ticks + n⟩ := by
  intro n
  induction n with
  | zero =>
    intro fuel c hn hf
    obtain ⟨f, rfl⟩ := Nat.exists_eq_succ_of_ne_zero (Nat.pos_iff_ne_zero.mp hf)
    have hle : target ≤ c.systick_millis := by omega
    simp only [delay_wait, gt_iff_lt, if_neg (Nat.not_lt.mpr hle), max_eq_left hle, Nat.add_zero]
  | succ n ih =>
    intro fuel c hn hf
    obtain ⟨f, rfl⟩ := Nat.exists_eq_succ_of_ne_zero (Nat.pos_iff_ne_zero.mp (by omega : 0 < fuel))
    have hlt : c.systick_millis < target := by omega
    have hmod : (c.systick_millis + 1) % UINT32_MOD = c.systick_millis + 1 :=
      Nat.mod_eq_of_lt (by omega)
    simp only [delay_wait, gt_iff_lt, if_pos hlt]
    rw [ih f (sys_tick_handler c) (by simp only [sys_tick_handler, hmod]; omega) (by omega)]
    simp only [sys_tick_handler, hmod]
    rw [max_eq_right (by omega : c.systick_millis + 1 ≤ target), max_eq_right hlt.le]
    congr 2
    omega

/-- With fewer condition evaluations than `target - systick_millis + 1` the
loop has not returned. -/
theorem delay_wait_spinning (target : Nat) (ht : target < UINT32_MOD) :
    ∀ (fuel : Nat) (c : Clock), fuel ≤ target - c.systick_millis →
      delay_wait fuel target c = none := by
  intro fuel
  induction fuel with
  | zero => intro c _; rfl
  | succ f ih =>
    intro c hf
    have hlt : c.systick_millis < target := by omega
    have hmod : (c.systick_millis + 1) % UINT32_MOD = c.systick_millis + 1 :=
      Nat.mod_eq_of_lt (by omega)
    simp only [delay_wait, gt_iff_lt, if_pos hlt]
    exact ih (sys_tick_handler c) (by simp only [sys_tick_handler, hmod]; omega)

theorem uint32_mod_pos : 0 < UINT32_MOD := by
  unfold UINT32_MOD; norm_num

/-- A delay of `d` milliseconds returns in at most `d` ticks, whatever the
counter holds. -/
theorem delay_returns (fuel d : Nat) (c : Clock) (hf : d < fuel) :
    ∃ c', delay fuel d c = some c' := by
  have ht : (c.systick_millis + d) % UINT32_MOD < UINT32_MOD := Nat.mod_lt _ uint32_mod_pos
  have hle : (c.systick_millis + d) % UINT32_MOD ≤ c.systick_millis + d := Nat.mod_le _ _
  exact ⟨_, delay_wait_returns _ ht _ fuel c rfl (by omega)⟩

/-- Without overflow of `systick_millis + d` the delay lasts exactly `d` ticks. -/
theorem delay_exact (fuel c d k : Nat) (hcd : c + d < UINT32_MOD) (hf : d < fuel) :
    delay fuel d ⟨c, k⟩ = some ⟨c + d, k + d⟩ := by
  have hmod : (c + d) % UINT32_MOD = c + d := Nat.mod_eq_of_lt hcd
  unfold delay
  simp only [hmod]
  rw [delay_wait_returns (c + d) hcd d fuel ⟨c, k⟩ (by simp) hf]
  simp

/-- Without overflow of `systick_millis + d` the delay has not returned after
fewer than `d + 1` evaluations of the loop condition. -/
theorem delay_not_early (fuel c d k : Nat) (hcd : c + d < UINT32_MOD) (hf : fuel ≤ d) :
    delay fuel d ⟨c, k⟩ = none := by
  have hmod : (c + d) % UINT32_MOD = c + d := Nat.mod_eq_of_lt hcd
  unfold delay
  simp only [hmod]
  exact delay_wait_spinning (c + d) hcd fuel ⟨c, k⟩ (by simp; omega)

/-- When `systick_millis + d` overflows 32 bits the delay returns at once. -/
theorem delay_overflow (fuel c d k : Nat) (hc : c < UINT32_MOD) (hd : d < UINT32_MOD)
    (hcd : UINT32_MOD ≤ c + d) (hf : 0 < fuel) :
    delay fuel d ⟨c, k⟩ = some ⟨c, k⟩ := by
  have hmod : (c + d) % UINT32_MOD = c + d - UINT32_MOD := by
    rw [Nat.mod_eq_sub_mod hcd, Nat.mod_eq_of_lt (by omega)]
  unfold delay
  simp only [hmod]
  rw [delay_wait_returns (c + d - UINT32_MOD) (by omega) 0 fuel ⟨c, k⟩ (by simp; omega) hf]
  simp
  omega

/-! ## Claims about `delay` -/

/-- C6: with one counter increment per tick and the counter read again after
every tick, for a start value `c` and a duration `d` with `c + d ≤ 2 ^ 32 - 1`
the call `delay(d)` returns (given fuel for `d + 1` evaluations of the loop
condition), it returns after exactly `d` ticks (so after at least `d` and at
most `d + 1`), and with `d` or fewer evaluations it has not returned yet. -/
theorem C6_delay_elapsed (c d k fuel early : Nat) (hcd : c + d ≤ 2 ^ 32 - 1)
    (hf : d < fuel) (he : early ≤ d) :
    (∃ c', delay fuel d ⟨c, k⟩ = some c' ∧ c'.systick_millis = c + d ∧
      d ≤ c'.ticks - k ∧ c'.ticks - k ≤ d + 1) ∧
    delay early d ⟨c, k⟩ = none := by
  have h : c + d < UINT32_MOD := by unfold UINT32_MOD; omega
  constructor
  · refine ⟨⟨c + d, k + d⟩, delay_exact fuel c d k h hf, rfl, ?_, ?_⟩ <;> simp
  · exact delay_not_early early c d k h he

/-- Witness of C6: a delay of 3 ms started at counter value 5. -/
theorem C6_delay_elapsed_witness :
    5 + 3 ≤ 2 ^ 32 - 1 ∧
    ((∃ c', delay 4 3 ⟨5, 0⟩ = some c' ∧ c'.systick_millis = 5 + 3 ∧
      3 ≤ c'.ticks - 0 ∧ c'.ticks - 0 ≤ 3 + 1) ∧
    delay 3 3 ⟨5, 0⟩ = none) :=
  ⟨by decide, C6_delay_elapsed 5 3 0 4 3 (by decide) (by decide) (by decide)⟩

/-- C7 fails as stated: at counter value `2 ^ 32 - 5` a delay of 10 ms computes
the target 5, which is below the counter, and returns with no tick elapsed. -/
theorem C7_counterexample :
    4294967291 < 2 ^ 32 ∧ 10 < 2 ^ 32 ∧ (4294967291 + 10) % 2 ^ 32 = 5 ∧
    delay 1 10 ⟨4294967291, 0⟩ = some ⟨4294967291, 0⟩ ∧
    ¬ (10 ≤ (⟨4294967291, 0⟩ : Clock).ticks - 0) := by
  decide

/-- C7 amended: `delay` compares `target > systick_millis` as plain unsigned
values.  For a start value `c` and a duration `d` below `2 ^ 32` it returns
after exactly `d` ticks when `c + d < 2 ^ 32`, and at once, after no tick, when
`c + d` overflows 32 bits. -/
theorem C7_delay_wraparound (c d k fuel : Nat) (hc : c < 2 ^ 32) (hd : d < 2 ^ 32)
    (hf : d < fuel) :
    delay fuel d ⟨c, k⟩ =
      if c + d < 2 ^ 32 then some ⟨c + d, k + d⟩ else some ⟨c, k⟩ := by
  have e : UINT32_MOD = 2 ^ 32 := rfl
  split_ifs with h
  · exact delay_exact fuel c d k (by rw [e]; exact h) hf
  · exact delay_overflow fuel c d k (by rw [e]; exact hc) (by rw [e]; exact hd)
      (by rw [e]; omega) (by omega)

/-- Witness of the amended C7: at counter value `2 ^ 32 - 5` a delay of 3 ms
lasts 3 ticks. -/
theorem C7_delay_wraparound_witness :
    delay 4 3 ⟨4294967291, 0⟩ =
      if 4294967291 + 3 < 2 ^ 32 then some ⟨4294967291 + 3, 0 + 3⟩
      else some ⟨4294967291, 0⟩ :=
  C7_delay_wraparound 4294967291 3 0 4 (by decide) (by decide) (by decide)


/-! ## Rounding to binary32 -/

theorem round_half_even_bounds (y : ℚ) :
    Int.floor y ≤ round_half_even y ∧ round_half_even y ≤ Int.floor y + 1 := by
  unfold round_half_even
  split_ifs <;> constructor <;> omega

theorem round_half_even_intCast (n : Int) : round_half_even (n : ℚ) = n := by
  unfold round_half_even
  simp

theorem round_half_even_mono (a b : ℚ) (hab : a ≤ b) :
    round_half_even a ≤ round_half_even b := by
  have hfl : Int.floor a ≤ Int.floor b := Int.floor_mono hab
  rcases lt_or_eq_of_le hfl with hlt | heq
  · have h1 := (round_half_even_bounds a).2
    have h2 := (round_half_even_bounds b).1
    omega
  · have hfr : Int.fract a ≤ Int.fract b := by
      unfold Int.fract
      rw [heq]
      linarith
    unfold round_half_even
    rw [heq]
    split_ifs <;> first | omega | (exfalso; linarith)

theorem round_half_even_le (y : ℚ) (n : Int) (h : y ≤ n) : round_half_even y ≤ n := by
  have := round_half_even_mono y n h
  rwa [round_half_even_intCast] at this

theorem le_round_half_even (y : ℚ) (n : Int) (h : (n : ℚ) ≤ y) : n ≤ round_half_even y := by
  have := round_half_even_mono n y h
  rwa [round_half_even_intCast] at this

theorem f32_ulp_pos (x : ℚ) : 0 < f32_ulp x := zpow_pos (by norm_num) _


theorem two_zpow_pos (k : Int) : (0 : ℚ) < (2 : ℚ) ^ k := zpow_pos (by norm_num) k

theorem two_zpow_mono (m n : Int) (h : m ≤ n) : (2 : ℚ) ^ m ≤ (2 : ℚ) ^ n :=
  zpow_le_zpow_right₀ (by norm_num) h

theorem log_lower (x : ℚ) (hx : 0 < x) : (2 : ℚ) ^ Int.log 2 x ≤ x := by
  have := Int.zpow_log_le_self (b := 2) (by norm_num) hx
  simpa using this

theorem log_upper (x : ℚ) : x < (2 : ℚ) ^ (Int.log 2 x + 1) := by
  have := Int.lt_zpow_succ_log_self (b := 2) (by norm_num) x
  simpa using this

/-- The scaled value `x / 2 ^ (E - 23)` against a power of two. -/
theorem div_ulp_le (x : ℚ) (E k : Int) (h : x ≤ (2 : ℚ) ^ k) :
    x / (2 : ℚ) ^ (E - 23) ≤ (2 : ℚ) ^ (k - (E - 23)) := by
  rw [div_le_iff₀ (two_zpow_pos _), ← zpow_add₀ (by norm_num)]
  simpa using h

theorem le_div_ulp (x : ℚ) (E k : Int) (h : (2 : ℚ) ^ k ≤ x) :
    (2 : ℚ) ^ (k - (E - 23)) ≤ x / (2 : ℚ) ^ (E - 23) := by
  rw [le_div_iff₀ (two_zpow_pos _), ← zpow_add₀ (by norm_num)]
  simpa using h

theorem f32_round_zero : f32_round 0 = 0 := by
  unfold f32_round
  simp [round_half_even]

theorem f32_round_nonneg (x : ℚ) (hx : 0 ≤ x) : 0 ≤ f32_round x := by
  unfold f32_round
  have hq := f32_ulp_pos x
  have h0 : ((0 : Int) : ℚ) ≤ x / f32_ulp x := by
    rw [Int.cast_zero]; exact div_nonneg hx hq.le
  have := le_round_half_even _ 0 h0
  have hc : (0 : ℚ) ≤ (round_half_even (x / f32_ulp x) : ℚ) := by exact_mod_cast this
  exact mul_nonneg hc hq.le

/-- A non-negative value rounds to at most the top of its binade. -/
theorem f32_round_le_top (x : ℚ) (hx : 0 ≤ x) :
    f32_round x ≤ (2 : ℚ) ^ (max (Int.log 2 x) (-126) + 1) := by
  unfold f32_round f32_ulp
  rw [abs_of_nonneg hx]
  set E := max (Int.log 2 x) (-126) with hE
  have hxE : x ≤ (2 : ℚ) ^ (E + 1) :=
    (log_upper x).le.trans (two_zpow_mono _ _ (by omega))
  have h1 := div_ulp_le x E (E + 1) hxE
  have e24 : (2 : ℚ) ^ (E + 1 - (E - 23)) = ((2 ^ 24 : Int) : ℚ) := by
    have : E + 1 - (E - 23) = 24 := by ring
    rw [this]; norm_num
  rw [e24] at h1
  have h2 := round_half_even_le _ _ h1
  have h3 : (round_half_even (x / (2 : ℚ) ^ (E - 23)) : ℚ) ≤ ((2 ^ 24 : Int) : ℚ) := by
    exact_mod_cast h2
  calc (round_half_even (x / (2 : ℚ) ^ (E - 23)) : ℚ) * (2 : ℚ) ^ (E - 23)
      ≤ ((2 ^ 24 : Int) : ℚ) * (2 : ℚ) ^ (E - 23) :=
        mul_le_mul_of_nonneg_right h3 (two_zpow_pos _).le
    _ = (2 : ℚ) ^ (E + 1) := by
        rw [← e24, ← zpow_add₀ (by norm_num)]
        congr 1
        ring

/-- A positive value in the normal range rounds to at least the bottom of its
binade. -/
theorem f32_round_ge_bottom (x : ℚ) (hx : 0 < x) (hn : -126 ≤ Int.log 2 x) :
    (2 : ℚ) ^ Int.log 2 x ≤ f32_round x := by
  unfold f32_round f32_ulp
  rw [abs_of_pos hx, max_eq_left hn]
  set E := Int.log 2 x with hE
  have h1 := le_div_ulp x E E (log_lower x hx)
  have e23 : (2 : ℚ) ^ (E - (E - 23)) = ((2 ^ 23 : Int) : ℚ) := by
    have : E - (E - 23) = 23 := by ring
    rw [this]; norm_num
  rw [e23] at h1
  have h2 := le_round_half_even _ _ h1
  have h3 : ((2 ^ 23 : Int) : ℚ) ≤ (round_half_even (x / (2 : ℚ) ^ (E - 23)) : ℚ) := by
    exact_mod_cast h2
  calc (2 : ℚ) ^ E = ((2 ^ 23 : Int) : ℚ) * (2 : ℚ) ^ (E - 23) := by
        rw [← e23, ← zpow_add₀ (by norm_num)]
        congr 1
        ring
    _ ≤ (round_half_even (x / (2 : ℚ) ^ (E - 23)) : ℚ) * (2 : ℚ) ^ (E - 23) :=
        mul_le_mul_of_nonneg_right h3 (two_zpow_pos _).le

/-- Rounding to binary32 is monotone on the non-negative values. -/
theorem f32_round_mono (x y : ℚ) (hx : 0 ≤ x) (hxy : x ≤ y) : f32_round x ≤ f32_round y := by
  rcases eq_or_lt_of_le hx with h0 | hpos
  · rw [← h0, f32_round_zero]
    exact f32_round_nonneg y (hx.trans hxy)
  have hy : 0 < y := lt_of_lt_of_le hpos hxy
  have hlog : Int.log 2 x ≤ Int.log 2 y := Int.log_mono_right hpos hxy
  rcases eq_or_lt_of_le (max_le_max hlog (le_refl (-126 : Int))) with heq | hlt
  · have hq : f32_ulp x = f32_ulp y := by
      unfold f32_ulp
      rw [abs_of_pos hpos, abs_of_pos hy, heq]
    unfold f32_round
    rw [hq]
    have hdiv : x / f32_ulp y ≤ y / f32_ulp y :=
      div_le_div_of_nonneg_right hxy (f32_ulp_pos y).le
    have := round_half_even_mono _ _ hdiv
    have hc : (round_half_even (x / f32_ulp y) : ℚ) ≤ (round_half_even (y / f32_ulp y) : ℚ) := by
      exact_mod_cast this
    exact mul_le_mul_of_nonneg_right hc (f32_ulp_pos y).le
  · have hny : -126 ≤ Int.log 2 y := by
      by_contra hc
      rw [max_eq_right (by omega : Int.log 2 y ≤ -126)] at hlt
      have := le_max_right (Int.log 2 x) (-126)
      omega
    rw [max_eq_left hny] at hlt
    calc f32_round x ≤ (2 : ℚ) ^ (max (Int.log 2 x) (-126) + 1) := f32_round_le_top x hx
      _ ≤ (2 : ℚ) ^ Int.log 2 y := two_zpow_mono _ _ (by omega)
      _ ≤ f32_round y := f32_round_ge_bottom y hy hny

theorem log_eq_of_bounds (x : ℚ) (e : Int) (hx : 0 < x) (h1 : (2 : ℚ) ^ e ≤ x)
    (h2 : x < (2 : ℚ) ^ (e + 1)) : Int.log 2 x = e := by
  have a : e ≤ Int.log 2 x := by
    rw [← Int.zpow_le_iff_le_log (b := 2) (by norm_num) hx]
    simpa using h1
  have b : Int.log 2 x < e + 1 := by
    rw [← Int.lt_zpow_iff_log_lt (b := 2) (by norm_num) hx]
    simpa using h2
  omega

theorem round_half_even_near (y : ℚ) (m : Int) (h : |y - m| < 1 / 2) :
    round_half_even y = m := by
  rw [abs_lt] at h
  obtain ⟨h1, h2⟩ := h
  rcases le_or_lt (m : ℚ) y with hge | hlt
  · have hfl : Int.floor y = m := by
      rw [Int.floor_eq_iff]; constructor <;> linarith
    have hfr : Int.fract y < 1 / 2 := by
      unfold Int.fract; rw [hfl]; linarith
    unfold round_half_even
    rw [if_pos hfr, hfl]
  · have hfl : Int.floor y = m - 1 := by
      rw [Int.floor_eq_iff]; push_cast; constructor <;> linarith
    have hfr : 1 / 2 < Int.fract y := by
      unfold Int.fract; rw [hfl]; push_cast; linarith
    unfold round_half_even
    rw [if_neg (by linarith), if_pos hfr, hfl]
    ring

/-- Evaluation of the rounding at a positive value of the normal range with
known binade `e` and nearest multiple `m` of the spacing. -/
theorem f32_round_eval (x : ℚ) (e m : Int) (hx : 0 < x) (he : -126 ≤ e)
    (h1 : (2 : ℚ) ^ e ≤ x) (h2 : x < (2 : ℚ) ^ (e + 1))
    (hm : |x / (2 : ℚ) ^ (e - 23) - m| < 1 / 2) :
    f32_round x = (m : ℚ) * (2 : ℚ) ^ (e - 23) := by
  unfold f32_round f32_ulp
  rw [abs_of_pos hx, log_eq_of_bounds x e hx h1 h2, max_eq_left he,
    round_half_even_near _ m hm]

/-- Whole numbers below `2 ^ 24` are binary32 values. -/
theorem f32_round_natCast (n : Nat) (hn : n < 2 ^ 24) : f32_round (n : ℚ) = n := by
  rcases Nat.eq_zero_or_pos n with h0 | hpos
  · rw [h0, Nat.cast_zero, f32_round_zero]
  have hx : (0 : ℚ) < n := by exact_mod_cast hpos
  have hlo : 0 ≤ Int.log 2 (n : ℚ) := by
    rw [← Int.zpow_le_iff_le_log (b := 2) (by norm_num) hx]
    simp
    exact_mod_cast hpos
  have hhi : Int.log 2 (n : ℚ) < 24 := by
    rw [← Int.lt_zpow_iff_log_lt (b := 2) (by norm_num) hx]
    have h24 : (n : ℚ) < 2 ^ 24 := by exact_mod_cast hn
    have e : ((2 : Nat) : ℚ) ^ (24 : Int) = 2 ^ 24 := by norm_num
    rw [e]
    exact h24
  obtain ⟨k, hk⟩ : ∃ k : Nat, (k : Int) = 23 - Int.log 2 (n : ℚ) :=
    ⟨(23 - Int.log 2 (n : ℚ)).toNat, Int.toNat_of_nonneg (by omega)⟩
  have hq : f32_ulp (n : ℚ) = ((2 : ℚ) ^ k)⁻¹ := by
    unfold f32_ulp
    rw [abs_of_pos hx, max_eq_left (by omega), ← zpow_natCast, ← zpow_neg, hk]
    congr 1
    ring
  have hdiv : (n : ℚ) / f32_ulp (n : ℚ) = (((n : Int) * 2 ^ k : Int) : ℚ) := by
    rw [hq, div_inv_eq_mul]
    push_cast
    ring
  unfold f32_round
  rw [hdiv, round_half_even_intCast, ← hdiv]
  exact div_mul_cancel₀ _ (f32_ulp_pos _).ne'

/-- The truncated binary32 value of a non-negative `y` below `2 ^ 24` lies
between the floor and the ceiling of `y`. -/
theorem floor_f32_round_bracket (y : ℚ) (h0 : 0 ≤ y) (h1 : y < 2 ^ 24 - 1) :
    Nat.floor y ≤ Nat.floor (f32_round y) ∧ Nat.floor (f32_round y) ≤ Nat.ceil y := by
  have hfl : Nat.floor y < 2 ^ 24 := by
    have : (Nat.floor y : ℚ) ≤ y := Nat.floor_le h0
    have : (Nat.floor y : ℚ) < ((2 ^ 24 : Nat) : ℚ) := by push_cast; linarith
    exact_mod_cast this
  have hcl : Nat.ceil y < 2 ^ 24 := by
    have : (Nat.ceil y : ℚ) < y + 1 := Nat.ceil_lt_add_one h0
    have : (Nat.ceil y : ℚ) < ((2 ^ 24 : Nat) : ℚ) := by push_cast; linarith
    exact_mod_cast this
  constructor
  · apply Nat.le_floor
    rw [← f32_round_natCast _ hfl]
    exact f32_round_mono _ _ (Nat.cast_nonneg _) (Nat.floor_le h0)
  · have h2 : f32_round y ≤ (Nat.ceil y : ℚ) := by
      rw [← f32_round_natCast _ hcl]
      exact f32_round_mono _ _ h0 (Nat.le_ceil y)
    have := Nat.floor_mono h2
    rwa [Nat.floor_natCast] at this

/-! ## Thresholds written by `led_color` -/

theorem period_eq : 1000000 / PWM_FREQ = 2000 := by decide

theorem period_cast : ((1000000 / PWM_FREQ : Nat) : ℚ) = 2000 := by
  rw [period_eq]; norm_num

theorem int_to_float_period : int_to_float (1000000 / PWM_FREQ) = 2000 := by
  unfold int_to_float
  rw [period_eq, f32_round_natCast 2000 (by norm_num)]
  norm_num

theorem f32_round_2000 : f32_round 2000 = 2000 := by
  have := f32_round_natCast 2000 (by norm_num)
  norm_num at this
  exact this

/-- The rounded product of an intensity in `[0, 1]` stays in `[0, 2000]`. -/
theorem scaled_range (x : ℚ) (h0 : 0 ≤ x) (h1 : x ≤ 1) :
    0 ≤ f32_round (x * 2000) ∧ f32_round (x * 2000) ≤ 2000 := by
  have hy : 0 ≤ x * 2000 := by positivity
  refine ⟨f32_round_nonneg _ hy, ?_⟩
  have := f32_round_mono (x * 2000) 2000 hy (by linarith)
  rwa [f32_round_2000] at this

/-- Conversion of a scaled intensity in `[0, 1]`: defined, and the floor of
the rounded product. -/
theorem float_to_uint32_scaled (x : ℚ) (h0 : 0 ≤ x) (h1 : x ≤ 1) :
    float_to_uint32 (f32_mul x (int_to_float (1000000 / PWM_FREQ))) =
      some (Nat.floor (f32_round (x * 2000))) := by
  rw [int_to_float_period]
  unfold f32_mul
  obtain ⟨hy0, hy1⟩ := scaled_range x h0 h1
  have hb : f32_round (x * 2000) < (UINT32_MOD : ℚ) := by
    unfold UINT32_MOD
    norm_num
    linarith
  unfold float_to_uint32
  rw [if_pos ⟨by linarith, hb⟩, if_pos hy0, Int.floor_toNat]

/-- The registers after `led_color` on intensities in `[0, 1]`. -/
theorem led_color_unit (t : Timers) (red green blue : ℚ) (hr0 : 0 ≤ red) (hr1 : red ≤ 1)
    (hg0 : 0 ≤ green) (hg1 : green ≤ 1) (hb0 : 0 ≤ blue) (hb1 : blue ≤ 1) :
    led_color t red green blue =
      some { tim1_period := t.tim1_period, tim4_period := t.tim4_period,
             tim1_oc1 := Nat.floor (f32_round (blue * 2000)),
             tim4_oc1 := Nat.floor (f32_round (red * 2000)),
             tim4_oc2 := Nat.floor (f32_round (green * 2000)) } := by
  unfold led_color
  rw [float_to_uint32_scaled blue hb0 hb1, float_to_uint32_scaled red hr0 hr1,
    float_to_uint32_scaled green hg0 hg1]
  rfl

theorem floor_scaled_le (x : ℚ) (h0 : 0 ≤ x) (h1 : x ≤ 1) :
    Nat.floor (f32_round (x * 2000)) ≤ 2000 := by
  have : Nat.floor (f32_round (x * 2000)) ≤ Nat.floor ((2000 : ℕ) : ℚ) :=
    Nat.floor_mono (by push_cast; exact (scaled_range x h0 h1).2)
  rwa [Nat.floor_natCast] at this

theorem floor_scaled_mono (x y : ℚ) (h0 : 0 ≤ x) (hxy : x ≤ y) :
    Nat.floor (f32_round (x * 2000)) ≤ Nat.floor (f32_round (y * 2000)) :=
  Nat.floor_mono (f32_round_mono _ _ (by positivity) (by linarith))

theorem floor_scaled_bracket (x : ℚ) (h0 : 0 ≤ x) (h1 : x ≤ 1) :
    Nat.floor (x * 2000) ≤ Nat.floor (f32_round (x * 2000)) ∧
    Nat.floor (f32_round (x * 2000)) ≤ Nat.ceil (x * 2000) :=
  floor_f32_round_bracket _ (by positivity) (by norm_num; linarith)

theorem scaled_red_example : Nat.floor (f32_round ((4095 / 8192 : ℚ) * 2000)) = 999 := by
  rw [f32_round_eval _ 9 16380000 (by norm_num) (by norm_num) (by norm_num) (by norm_num)
    (by rw [abs_lt]; constructor <;> norm_num)]
  rw [Nat.floor_eq_iff (by norm_num)]
  norm_num

theorem scaled_green_example :
    Nat.floor (f32_round ((8623489 / 33554432 : ℚ) * 2000)) = 514 := by
  rw [f32_round_eval _ 9 8421376 (by norm_num) (by norm_num) (by norm_num) (by norm_num)
    (by rw [abs_lt]; constructor <;> norm_num)]
  rw [Nat.floor_eq_iff (by norm_num)]
  norm_num

theorem scaled_blue_example :
    Nat.floor (f32_round ((5368709 / 1073741824 : ℚ) * 2000)) = 10 := by
  rw [f32_round_eval _ 3 10485760 (by norm_num) (by norm_num) (by norm_num) (by norm_num)
    (by rw [abs_lt]; constructor <;> norm_num)]
  rw [Nat.floor_eq_iff (by norm_num)]
  norm_num

/-- The registers after `led_color` on the binary32 intensities `4095 / 2 ^ 13`,
`0.257f` and `0.005f`. -/
theorem led_color_example (t : Timers) :
    led_color (pwm_setup t) (4095 / 8192) (8623489 / 33554432) (5368709 / 1073741824) =
      some ⟨2000, 2000, 10, 999, 514⟩ := by
  rw [led_color_unit _ _ _ _ (by norm_num) (by norm_num) (by norm_num) (by norm_num)
    (by norm_num) (by norm_num), scaled_red_example, scaled_green_example, scaled_blue_example]
  rfl

/-! ## Claims about the thresholds -/

/-- C4 fails as stated: for the red intensity `4095 / 8192` (a binary32 value,
about 0.49988) the scaled value is 999.755859375; `led_color` writes 999, the
value rounded to the nearest integer is 1000. -/
theorem C4_counterexample :
    (0 : ℚ) ≤ 4095 / 8192 ∧ (4095 / 8192 : ℚ) ≤ 1 ∧
    led_color (pwm_setup ⟨0, 0, 0, 0, 0⟩) (4095 / 8192) (8623489 / 33554432)
      (5368709 / 1073741824) = some ⟨2000, 2000, 10, 999, 514⟩ ∧
    round ((4095 / 8192 : ℚ) * ((1000000 / PWM_FREQ : Nat) : ℚ)) = 1000 := by
  refine ⟨by norm_num, by norm_num, led_color_example _, ?_⟩
  rw [period_cast, round_eq, Int.floor_eq_iff]
  norm_num

/-- C4 amended: `led_color` maps every intensity `x` in `[0, 1]` to the
threshold `floor (fl (x * period))`, where `fl` rounds the product to binary32
and the conversion to `uint32_t` discards the fraction (no rounding to the
nearest integer), with `period = 1000000/PWM_FREQ = 2000`, for each of the
three channels.  The threshold lies between `floor (x * period)` and
`ceil (x * period)`; for the binary32 intensities `4095 / 2 ^ 13`, `0.257f` and
`0.005f` it is 999, 514 and 10. -/
theorem C4_led_color_threshold (t : Timers) (red green blue : ℚ) (hr0 : 0 ≤ red)
    (hr1 : red ≤ 1) (hg0 : 0 ≤ green) (hg1 : green ≤ 1) (hb0 : 0 ≤ blue) (hb1 : blue ≤ 1) :
    1000000 / PWM_FREQ = 2000 ∧
    (pwm_setup t).tim1_period = 1000000 / PWM_FREQ ∧
    (pwm_setup t).tim4_period = 1000000 / PWM_FREQ ∧
    (∃ u, led_color (pwm_setup t) red green blue = some u ∧
      u.tim4_oc1 = Nat.floor (f32_round (red * ((1000000 / PWM_FREQ : Nat) : ℚ))) ∧
      u.tim4_oc2 = Nat.floor (f32_round (green * ((1000000 / PWM_FREQ : Nat) : ℚ))) ∧
      u.tim1_oc1 = Nat.floor (f32_round (blue * ((1000000 / PWM_FREQ : Nat) : ℚ))) ∧
      Nat.floor (red * ((1000000 / PWM_FREQ : Nat) : ℚ)) ≤ u.tim4_oc1 ∧
      u.tim4_oc1 ≤ Nat.ceil (red * ((1000000 / PWM_FREQ : Nat) : ℚ)) ∧
      Nat.floor (green * ((1000000 / PWM_FREQ : Nat) : ℚ)) ≤ u.tim4_oc2 ∧
      u.tim4_oc2 ≤ Nat.ceil (green * ((1000000 / PWM_FREQ : Nat) : ℚ)) ∧
      Nat.floor (blue * ((1000000 / PWM_FREQ : Nat) : ℚ)) ≤ u.tim1_oc1 ∧
      u.tim1_oc1 ≤ Nat.ceil (blue * ((1000000 / PWM_FREQ : Nat) : ℚ))) ∧
    led_color (pwm_setup t) (4095 / 8192) (8623489 / 33554432) (5368709 / 1073741824) =
      some ⟨2000, 2000, 10, 999, 514⟩ := by
  refine ⟨period_eq, rfl, rfl,
    ⟨_, led_color_unit _ red green blue hr0 hr1 hg0 hg1 hb0 hb1, ?_⟩, led_color_example t⟩
  rw [period_cast]
  exact ⟨rfl, rfl, rfl, (floor_scaled_bracket red hr0 hr1).1, (floor_scaled_bracket red hr0 hr1).2,
    (floor_scaled_bracket green hg0 hg1).1, (floor_scaled_bracket green hg0 hg1).2,
    (floor_scaled_bracket blue hb0 hb1).1, (floor_scaled_bracket blue hb0 hb1).2⟩

/-- Witness of the amended C4 at the binary32 colour (0.4f, 0.257f, 0.005f),
whose three products are not whole numbers. -/
theorem C4_led_color_threshold_witness :
    1000000 / PWM_FREQ = 2000 ∧
    (pwm_setup ⟨0, 0, 0, 0, 0⟩).tim1_period = 1000000 / PWM_FREQ ∧
    (pwm_setup ⟨0, 0, 0, 0, 0⟩).tim4_period = 1000000 / PWM_FREQ ∧
    (∃ u, led_color (pwm_setup ⟨0, 0, 0, 0, 0⟩) (13421773 / 33554432) (8623489 / 33554432)
        (5368709 / 1073741824) = some u ∧
      u.tim4_oc1 =
        Nat.floor (f32_round ((13421773 / 33554432 : ℚ) * ((1000000 / PWM_FREQ : Nat) : ℚ))) ∧
      u.tim4_oc2 =
        Nat.floor (f32_round ((8623489 / 33554432 : ℚ) * ((1000000 / PWM_FREQ : Nat) : ℚ))) ∧
      u.tim1_oc1 =
        Nat.floor (f32_round ((5368709 / 1073741824 : ℚ) * ((1000000 / PWM_FREQ : Nat) : ℚ))) ∧
      Nat.floor ((13421773 / 33554432 : ℚ) * ((1000000 / PWM_FREQ : Nat) : ℚ)) ≤ u.tim4_oc1 ∧
      u.tim4_oc1 ≤ Nat.ceil ((13421773 / 33554432 : ℚ) * ((1000000 / PWM_FREQ : Nat) : ℚ)) ∧
      Nat.floor ((8623489 / 33554432 : ℚ) * ((1000000 / PWM_FREQ : Nat) : ℚ)) ≤ u.tim4_oc2 ∧
      u.tim4_oc2 ≤ Nat.ceil ((8623489 / 33554432 : ℚ) * ((1000000 / PWM_FREQ : Nat) : ℚ)) ∧
      Nat.floor ((5368709 / 1073741824 : ℚ) * ((1000000 / PWM_FREQ : Nat) : ℚ)) ≤ u.tim1_oc1 ∧
      u.tim1_oc1 ≤ Nat.ceil ((5368709 / 1073741824 : ℚ) * ((1000000 / PWM_FREQ : Nat) : ℚ))) ∧
    led_color (pwm_setup ⟨0, 0, 0, 0, 0⟩) (4095 / 8192) (8623489 / 33554432)
      (5368709 / 1073741824) = some ⟨2000, 2000, 10, 999, 514⟩ :=
  C4_led_color_threshold ⟨0, 0, 0, 0, 0⟩ (13421773 / 33554432) (8623489 / 33554432)
    (5368709 / 1073741824) (by norm_num) (by norm_num) (by norm_num) (by norm_num)
    (by norm_num) (by norm_num)

/-- C5: the threshold mapping of `led_color` hits both ends (intensity 0 gives
threshold 0, intensity 1 gives the period 2000), is monotone non-decreasing on
`[0, 1]` in each channel, and every threshold written for intensities in
`[0, 1]` is at most the period set by `pwm_setup`. -/
theorem C5_threshold_monotone (t : Timers) (r g b r' g' b' : ℚ)
    (hr0 : 0 ≤ r) (hr1 : r ≤ 1) (hg0 : 0 ≤ g) (hg1 : g ≤ 1) (hb0 : 0 ≤ b) (hb1 : b ≤ 1)
    (hr0' : 0 ≤ r') (hr1' : r' ≤ 1) (hg0' : 0 ≤ g') (hg1' : g' ≤ 1) (hb0' : 0 ≤ b')
    (hb1' : b' ≤ 1) :
    led_color (pwm_setup t) 0 0 0 = some ⟨2000, 2000, 0, 0, 0⟩ ∧
    led_color (pwm_setup t) 1 1 1 = some ⟨2000, 2000, 2000, 2000, 2000⟩ ∧
    ∃ u u', led_color (pwm_setup t) r g b = some u ∧
      led_color (pwm_setup t) r' g' b' = some u' ∧
      (r ≤ r' → u.tim4_oc1 ≤ u'.tim4_oc1) ∧
      (g ≤ g' → u.tim4_oc2 ≤ u'.tim4_oc2) ∧
      (b ≤ b' → u.tim1_oc1 ≤ u'.tim1_oc1) ∧
      u.tim4_oc1 ≤ u.tim4_period ∧ u.tim4_oc2 ≤ u.tim4_period ∧
      u.tim1_oc1 ≤ u.tim1_period ∧ u.tim1_period = 2000 ∧ u.tim4_period = 2000 := by
  refine ⟨?_, ?_, _, _, led_color_unit _ r g b hr0 hr1 hg0 hg1 hb0 hb1,
    led_color_unit _ r' g' b' hr0' hr1' hg0' hg1' hb0' hb1', ?_⟩
  · rw [led_color_unit _ 0 0 0 (by norm_num) (by norm_num) (by norm_num) (by norm_num)
      (by norm_num) (by norm_num)]
    have e : Nat.floor (f32_round ((0 : ℚ) * 2000)) = 0 := by
      rw [zero_mul, f32_round_zero, Nat.floor_zero]
    rw [e]
    rfl
  · rw [led_color_unit _ 1 1 1 (by norm_num) (by norm_num) (by norm_num) (by norm_num)
      (by norm_num) (by norm_num)]
    have e : Nat.floor (f32_round ((1 : ℚ) * 2000)) = 2000 := by
      rw [one_mul, f32_round_2000]; exact Nat.floor_natCast 2000
    rw [e]
    rfl
  · refine ⟨fun h => floor_scaled_mono _ _ hr0 h, fun h => floor_scaled_mono _ _ hg0 h,
      fun h => floor_scaled_mono _ _ hb0 h, ?_, ?_, ?_, rfl, rfl⟩
    · exact floor_scaled_le r hr0 hr1
    · exact floor_scaled_le g hg0 hg1
    · exact floor_scaled_le b hb0 hb1

/-- Witness of C5 at the colours (1/4, 1/2, 0) and (1/2, 1/2, 1). -/
theorem C5_threshold_monotone_witness :
    led_color (pwm_setup ⟨0, 0, 0, 0, 0⟩) 0 0 0 = some ⟨2000, 2000, 0, 0, 0⟩ ∧
    led_color (pwm_setup ⟨0, 0, 0, 0, 0⟩) 1 1 1 = some ⟨2000, 2000, 2000, 2000, 2000⟩ ∧
    ∃ u u', led_color (pwm_setup ⟨0, 0, 0, 0, 0⟩) (1 / 4) (1 / 2) 0 = some u ∧
      led_color (pwm_setup ⟨0, 0, 0, 0, 0⟩) (1 / 2) (1 / 2) 1 = some u' ∧
      ((1 / 4 : ℚ) ≤ 1 / 2 → u.tim4_oc1 ≤ u'.tim4_oc1) ∧
      ((1 / 2 : ℚ) ≤ 1 / 2 → u.tim4_oc2 ≤ u'.tim4_oc2) ∧
      ((0 : ℚ) ≤ 1 → u.tim1_oc1 ≤ u'.tim1_oc1) ∧
      u.tim4_oc1 ≤ u.tim4_period ∧ u.tim4_oc2 ≤ u.tim4_period ∧
      u.tim1_oc1 ≤ u.tim1_period ∧ u.tim1_period = 2000 ∧ u.tim4_period = 2000 :=
  C5_threshold_monotone ⟨0, 0, 0, 0, 0⟩ (1 / 4) (1 / 2) 0 (1 / 2) (1 / 2) 1
    (by norm_num) (by norm_num) (by norm_num) (by norm_num) (by norm_num) (by norm_num)
    (by norm_num) (by norm_num) (by norm_num) (by norm_num) (by norm_num) (by norm_num)

/-- C9: for a hue in `[0, 360)` and saturation and value in `[0, 1]` each
output of `hsv_to_rgb` lies between `v * (1 - s)` and `v`, hence in `[0, 1]`,
and every threshold `led_color` derives from the converted colour is at most
the period. -/
theorem C9_rgb_range (t : Timers) (h s v : ℚ) (h0 : 0 ≤ h) (h360 : h < 360)
    (hs0 : 0 ≤ s) (hs1 : s ≤ 1) (hv0 : 0 ≤ v) (hv1 : v ≤ 1) :
    ((v * (1 - s) ≤ (hsv_to_rgb h s v).r ∧ (hsv_to_rgb h s v).r ≤ v) ∧
     (v * (1 - s) ≤ (hsv_to_rgb h s v).g ∧ (hsv_to_rgb h s v).g ≤ v) ∧
     (v * (1 - s) ≤ (hsv_to_rgb h s v).b ∧ (hsv_to_rgb h s v).b ≤ v)) ∧
    ((0 ≤ (hsv_to_rgb h s v).r ∧ (hsv_to_rgb h s v).r ≤ 1) ∧
     (0 ≤ (hsv_to_rgb h s v).g ∧ (hsv_to_rgb h s v).g ≤ 1) ∧
     (0 ≤ (hsv_to_rgb h s v).b ∧ (hsv_to_rgb h s v).b ≤ 1)) ∧
    ∃ u, led_color (pwm_setup t) (hsv_to_rgb h s v).r (hsv_to_rgb h s v).g
        (hsv_to_rgb h s v).b = some u ∧
      u.tim4_oc1 ≤ u.tim4_period ∧ u.tim4_oc2 ≤ u.tim4_period ∧
      u.tim1_oc1 ≤ u.tim1_period ∧ u.tim1_period = 1000000 / PWM_FREQ ∧
      u.tim4_period = 1000000 / PWM_FREQ := by
  have hu := hsv_to_rgb_unit h s v h0 h360 hs0 hs1 hv0 hv1
  refine ⟨hsv_to_rgb_between h s v h0 h360 hs0 hv0, hu, ?_⟩
  obtain ⟨⟨r0, r1⟩, ⟨g0, g1⟩, ⟨b0, b1⟩⟩ := hu
  refine ⟨_, led_color_unit _ _ _ _ r0 r1 g0 g1 b0 b1, ?_, ?_, ?_, rfl, rfl⟩
  · exact floor_scaled_le _ r0 r1
  · exact floor_scaled_le _ g0 g1
  · exact floor_scaled_le _ b0 b1

/-- Witness of C9 at hue 200, saturation 1/2 and value 3/4. -/
theorem C9_rgb_range_witness :
    (((3 / 4 : ℚ) * (1 - 1 / 2) ≤ (hsv_to_rgb 200 (1 / 2) (3 / 4)).r ∧
        (hsv_to_rgb 200 (1 / 2) (3 / 4)).r ≤ 3 / 4) ∧
     ((3 / 4 : ℚ) * (1 - 1 / 2) ≤ (hsv_to_rgb 200 (1 / 2) (3 / 4)).g ∧
        (hsv_to_rgb 200 (1 / 2) (3 / 4)).g ≤ 3 / 4) ∧
     ((3 / 4 : ℚ) * (1 - 1 / 2) ≤ (hsv_to_rgb 200 (1 / 2) (3 / 4)).b ∧
        (hsv_to_rgb 200 (1 / 2) (3 / 4)).b ≤ 3 / 4)) ∧
    ((0 ≤ (hsv_to_rgb 200 (1 / 2) (3 / 4)).r ∧ (hsv_to_rgb 200 (1 / 2) (3 / 4)).r ≤ 1) ∧
     (0 ≤ (hsv_to_rgb 200 (1 / 2) (3 / 4)).g ∧ (hsv_to_rgb 200 (1 / 2) (3 / 4)).g ≤ 1) ∧
     (0 ≤ (hsv_to_rgb 200 (1 / 2) (3 / 4)).b ∧ (hsv_to_rgb 200 (1 / 2) (3 / 4)).b ≤ 1)) ∧
    ∃ u, led_color (pwm_setup ⟨0, 0, 0, 0, 0⟩) (hsv_to_rgb 200 (1 / 2) (3 / 4)).r
        (hsv_to_rgb 200 (1 / 2) (3 / 4)).g (hsv_to_rgb 200 (1 / 2) (3 / 4)).b = some u ∧
      u.tim4_oc1 ≤ u.tim4_period ∧ u.tim4_oc2 ≤ u.tim4_period ∧
      u.tim1_oc1 ≤ u.tim1_period ∧ u.tim1_period = 1000000 / PWM_FREQ ∧
      u.tim4_period = 1000000 / PWM_FREQ :=
  C9_rgb_range ⟨0, 0, 0, 0, 0⟩ 200 (1 / 2) (3 / 4) (by norm_num) (by norm_num) (by norm_num)
    (by norm_num) (by norm_num) (by norm_num)


/-! ## The animation loop -/

theorem hue_run_succ (n k : Nat) :
    hue_run n (k + 1) = (((n % 360 : Nat) : ℚ)) :: hue_run ((n + 1) % 360) k := by
  unfold hue_run
  rw [List.range_succ_eq_map, List.map_cons, List.map_map]
  congr 1
  apply List.map_congr_left
  intro j _
  simp only [Function.comp_apply]
  congr 1
  omega

/-- One iteration from a whole hue below 360: the iteration completes, the
current hue is the one converted, the next hue is its successor modulo 360. -/
theorem main_iter_whole (fuel : Nat) (hf : 10 < fuel) (st : MainState) (n : Nat)
    (hn : n < 360) (hst : st.hue = n) :
    ∃ st', main_iter fuel st = some st' ∧ st'.hue = (((n + 1) % 360 : Nat) : ℚ) ∧
      st'.pushed = st.pushed ++ [(n : ℚ)] := by
  have h0 : (0 : ℚ) ≤ n := Nat.cast_nonneg n
  have h360 : (n : ℚ) < 360 := by exact_mod_cast hn
  obtain ⟨⟨r0, r1⟩, ⟨g0, g1⟩, ⟨b0, b1⟩⟩ := hsv_to_rgb_unit n 1 1 h0 h360 (by norm_num)
    (by norm_num) (by norm_num) (by norm_num)
  obtain ⟨c', hc'⟩ := delay_returns fuel 10 st.clock hf
  have hhue : (if (n : ℚ) + 1 ≥ 360 then (0 : ℚ) else (n : ℚ) + 1) =
      (((n + 1) % 360 : Nat) : ℚ) := by
    by_cases hw : n + 1 = 360
    · have : (n : ℚ) + 1 = 360 := by exact_mod_cast hw
      rw [if_pos (by linarith), hw]
      norm_num
    · have hlt : n + 1 < 360 := by omega
      have : (n : ℚ) + 1 < 360 := by exact_mod_cast hlt
      rw [if_neg (by linarith), Nat.mod_eq_of_lt hlt]
      push_cast
      rfl
  obtain ⟨u, hu⟩ : ∃ u, led_color st.timers (hsv_to_rgb n 1 1).r (hsv_to_rgb n 1 1).g
      (hsv_to_rgb n 1 1).b = some u := ⟨_, led_color_unit _ _ _ _ r0 r1 g0 g1 b0 b1⟩
  refine ⟨{ hue := (((n + 1) % 360 : Nat) : ℚ),
             timers := u, clock := c', pushed := st.pushed ++ [(n : ℚ)] }, ?_, rfl, rfl⟩
  unfold main_iter
  rw [hst]
  simp only [hu, hc', Option.pure_def, Option.bind_eq_bind, Option.some_bind, hhue]

/-- The first `k` iterations from a whole hue below 360. -/
theorem main_loop_whole (fuel : Nat) (hf : 10 < fuel) :
    ∀ (k : Nat) (st : MainState) (n : Nat), n < 360 → st.hue = n →
      ∃ st', main_loop fuel k st = some st' ∧ st'.hue = (((n + k) % 360 : Nat) : ℚ) ∧
        st'.pushed = st.pushed ++ hue_run n k := by
  intro k
  induction k with
  | zero =>
    intro st n hn hst
    refine ⟨st, rfl, ?_, ?_⟩
    · rw [hst, Nat.add_zero, Nat.mod_eq_of_lt hn]
    · simp [hue_run]
  | succ k ih =>
    intro st n hn hst
    obtain ⟨st1, h1, hhue1, hp1⟩ := main_iter_whole fuel hf st n hn hst
    obtain ⟨st2, h2, hhue2, hp2⟩ := ih st1 ((n + 1) % 360) (Nat.mod_lt _ (by norm_num)) hhue1
    refine ⟨st2, ?_, ?_, ?_⟩
    · simp only [main_loop, h1, Option.some_bind, h2]
    · rw [hhue2]
      congr 1
      omega
    · rw [hp2, hp1, hue_run_succ, Nat.mod_eq_of_lt hn, List.append_assoc]
      rfl

theorem mem_hue_run (n k : Nat) (h : ℚ) (hh : h ∈ hue_run n k) :
    ∃ m : Nat, m < 360 ∧ h = m := by
  unfold hue_run at hh
  rw [List.mem_map] at hh
  obtain ⟨j, _, rfl⟩ := hh
  exact ⟨(n + j) % 360, Nat.mod_lt _ (by norm_num), rfl⟩

/-- The sector of a hue in `[0, 360)` is one of `0, ..., 5`. -/
theorem sector_range (h : ℚ) (h0 : 0 ≤ h) (h360 : h < 360) :
    0 ≤ Int.floor (h / 60) ∧ Int.floor (h / 60) ≤ 5 := by
  obtain ⟨k, hk, hfl, -, -⟩ := sector_cases h h0 h360
  rw [hfl]
  omega

/-! ## Claims about the animation loop -/

/-- C8 fails as stated: entered with hue 358, the first three iterations
convert and push the hues 358, 359, 0 (the current hue, before it is
advanced), not 359, 0, 1. -/
theorem C8_counterexample :
    ∃ st', main_loop 11 3 ⟨358, pwm_setup ⟨0, 0, 0, 0, 0⟩, ⟨0, 0⟩, []⟩ = some st' ∧
      st'.pushed = [358, 359, 0] ∧ st'.pushed ≠ [359, 0, 1] := by
  obtain ⟨st', h1, -, h3⟩ := main_loop_whole 11 (by decide) 3
    ⟨358, pwm_setup ⟨0, 0, 0, 0, 0⟩, ⟨0, 0⟩, []⟩ 358 (by decide) (by norm_num)
  have e : hue_run 358 3 = [358, 359, 0] := by
    simp [hue_run, List.range_succ]
  refine ⟨st', h1, ?_, ?_⟩
  · rw [h3, e]; rfl
  · rw [h3, e]
    simp

/-- C8 amended: each iteration of the animation loop converts and pushes the
current hue and advances it afterwards (`hue + 1`, reset to exactly 0 when that
reaches 360).  Entered with a whole hue `h0` in `[0, 360)`, the loop pushes
`(h0 + k - 1) mod 360` in its `k`-th iteration (`k = 1, 2, ...`) and holds the
hue `(h0 + k) mod 360` after it; entered with hue 358, the first three pushes
see the hues 358, 359, 0. -/
theorem C8_pushed_hues (fuel : Nat) (hf : 10 < fuel) (k : Nat) (st : MainState) (n : Nat)
    (hn : n < 360) (hst : st.hue = n) (t : Timers) (c : Clock) :
    (∃ st', main_loop fuel k st = some st' ∧
      st'.pushed = st.pushed ++ (List.range k).map (fun j => (((n + j) % 360 : Nat) : ℚ)) ∧
      st'.hue = (((n + k) % 360 : Nat) : ℚ)) ∧
    (∃ st', main_loop fuel 3 ⟨358, t, c, []⟩ = some st' ∧ st'.pushed = [358, 359, 0]) := by
  constructor
  · obtain ⟨st', h1, h2, h3⟩ := main_loop_whole fuel hf k st n hn hst
    exact ⟨st', h1, h3, h2⟩
  · obtain ⟨st', h1, -, h3⟩ := main_loop_whole fuel hf 3 ⟨358, t, c, []⟩ 358 (by decide)
      (by norm_num)
    have e : hue_run 358 3 = [358, 359, 0] := by
      simp [hue_run, List.range_succ]
    exact ⟨st', h1, by rw [h3, e]; rfl⟩

/-- Witness of the amended C8: five iterations entered with hue 357. -/
theorem C8_pushed_hues_witness :
    (∃ st', main_loop 11 5 ⟨357, pwm_setup ⟨0, 0, 0, 0, 0⟩, ⟨0, 0⟩, []⟩ = some st' ∧
      st'.pushed = [] ++ (List.range 5).map (fun j => (((357 + j) % 360 : Nat) : ℚ)) ∧
      st'.hue = (((357 + 5) % 360 : Nat) : ℚ)) ∧
    (∃ st', main_loop 11 3 ⟨358, pwm_setup ⟨0, 0, 0, 0, 0⟩, ⟨0, 0⟩, []⟩ = some st' ∧
      st'.pushed = [358, 359, 0]) :=
  C8_pushed_hues 11 (by decide) 5 ⟨357, pwm_setup ⟨0, 0, 0, 0, 0⟩, ⟨0, 0⟩, []⟩ 357 (by decide)
    (by norm_num) (pwm_setup ⟨0, 0, 0, 0, 0⟩) ⟨0, 0⟩

/-- C10: entered with hue 0, the loop of `main` completes any number `k` of
iterations; each of the `k` hues it passes to `hsv_to_rgb` is a whole number of
degrees in `[0, 360)` with a sector `floor (hue / 60)` from 0 to 5, and so is
the hue it holds afterwards; and one iteration takes every whole hue in
`[0, 360)` to a whole hue in `[0, 360)`. -/
theorem C10_hue_invariant (fuel : Nat) (hf : 10 < fuel) (t : Timers) (c : Clock) (k : Nat)
    (st : MainState) (n : Nat) (hn : n < 360) (hst : st.hue = n) :
    (∃ st', main_loop fuel k (main_entry t c) = some st' ∧
      st'.pushed.length = k ∧
      (∀ h ∈ st'.pushed, (∃ m : Nat, m < 360 ∧ h = m) ∧ 0 ≤ h ∧ h < 360 ∧
        0 ≤ Int.floor (h / 60) ∧ Int.floor (h / 60) ≤ 5) ∧
      (∃ m : Nat, m < 360 ∧ st'.hue = m) ∧ 0 ≤ st'.hue ∧ st'.hue < 360) ∧
    (∃ st', main_iter fuel st = some st' ∧ ∃ m : Nat, m < 360 ∧ st'.hue = m) := by
  constructor
  · obtain ⟨st', h1, h2, h3⟩ := main_loop_whole fuel hf k (main_entry t c) 0 (by decide)
      (by simp [main_entry])
    have hlt : (0 + k) % 360 < 360 := Nat.mod_lt _ (by norm_num)
    refine ⟨st', h1, ?_, ?_, ⟨_, hlt, h2⟩, ?_, ?_⟩
    · rw [h3]; simp [main_entry, hue_run]
    · intro h hh
      rw [h3] at hh
      simp only [main_entry, List.nil_append] at hh
      obtain ⟨m, hm, rfl⟩ := mem_hue_run 0 k h hh
      have a0 : (0 : ℚ) ≤ m := Nat.cast_nonneg m
      have a1 : (m : ℚ) < 360 := by exact_mod_cast hm
      exact ⟨⟨m, hm, rfl⟩, a0, a1, sector_range _ a0 a1⟩
    · rw [h2]; exact Nat.cast_nonneg _
    · rw [h2]; exact_mod_cast hlt
  · obtain ⟨st', h1, h2, -⟩ := main_iter_whole fuel hf st n hn hst
    exact ⟨st', h1, _, Nat.mod_lt _ (by norm_num), h2⟩

/-- Witness of C10: 400 iterations from the entry of `main`, and one iteration
from hue 359. -/
theorem C10_hue_invariant_witness :
    (∃ st', main_loop 11 400 (main_entry ⟨0, 0, 0, 0, 0⟩ ⟨0, 0⟩) = some st' ∧
      st'.pushed.length = 400 ∧
      (∀ h ∈ st'.pushed, (∃ m : Nat, m < 360 ∧ h = m) ∧ 0 ≤ h ∧ h < 360 ∧
        0 ≤ Int.floor (h / 60) ∧ Int.floor (h / 60) ≤ 5) ∧
      (∃ m : Nat, m < 360 ∧ st'.hue = m) ∧ 0 ≤ st'.hue ∧ st'.hue < 360) ∧
    (∃ st', main_iter 11 ⟨359, pwm_setup ⟨0, 0, 0, 0, 0⟩, ⟨0, 0⟩, []⟩ = some st' ∧
      ∃ m : Nat, m < 360 ∧ st'.hue = m) :=
  C10_hue_invariant 11 (by decide) ⟨0, 0, 0, 0, 0⟩ ⟨0, 0⟩ 400
    ⟨359, pwm_setup ⟨0, 0, 0, 0, 0⟩, ⟨0, 0⟩, []⟩ 359 (by decide) (by norm_num)

end Dash
